import Mathlib

/-
  Verification development for the CRUD-Ecommerce backend.

  The definitions below are a shallow embedding of the Express/Mongoose
  handlers in the repository:
    - middleware/auth.js        (authenticate, isAdmin, isAdminOrSeller, isUser)
    - routes/userRoutes.js      (register, login, buy, orders, cancel)
    - routes/productRoutes.js   (addproduct, search, update, delete)
    - routes/sellerRoutes.js    (register, login, addproduct, update)
    - routes/adminRoutes.js     (login, create, role, order status)

  The document database is modelled as lists of records; MongoDB's
  by-id primitives (findById, findByIdAndUpdate, findByIdAndDelete,
  findOne, $inc) are modelled as first-match operations on those lists.
  External primitives (bcrypt, JWT) are modelled as concrete functions
  with the properties the code relies on; the model files
  (models/user.js, models/product.js, models/order.js) are not part of
  the sources, so the few facts taken from them are modelled from the
  spec and marked as such in doc comments.
-/

namespace ECom

inductive Role where
  | user
  | seller
  | admin
deriving DecidableEq, Repr

/-- An account document (models/user.js shape as used by the routes):
name, email, hashed password, role. -/
structure Account where
  id : Nat
  name : String
  email : String
  password : String
  role : Role
deriving DecidableEq, Repr

inductive OrderStatus where
  | pending
  | confirmed
  | shipped
  | delivered
  | cancelled
deriving DecidableEq, Repr

/-- One element of the `products` array of a `/api/user/buy` request body:
`{productId, quantity}`.  Quantities are non-negative integers, following
the data model of the spec (a line item is a (product, quantity) pair,
quantities count sellable units). -/
structure LineReq where
  productId : Nat
  quantity : Nat
deriving DecidableEq, Repr

/-- A line-item snapshot stored inside an order:
`{productId, name, price, quantity}` as pushed by the buy handler. -/
structure LineItem where
  productId : Nat
  name : String
  price : Int
  quantity : Nat
deriving DecidableEq, Repr

/-- A product document: name, price, description, color, quantity-on-hand.
The quantity is an integer so that non-negativity is a provable invariant
rather than a typing artifact. -/
structure Product where
  id : Nat
  name : String
  price : Int
  description : String
  color : String
  quantity : Int
deriving DecidableEq, Repr

/-- An order document: owner, line-item snapshots, total, shipping
address, status. -/
structure Order where
  id : Nat
  userId : Nat
  products : List LineItem
  totalAmount : Int
  shippingAddress : String
  status : OrderStatus
deriving DecidableEq, Repr

/-- The whole database: the three collections plus fresh-id counters
standing in for MongoDB ObjectId generation. -/
structure DB where
  users : List Account
  products : List Product
  orders : List Order
  nextUserId : Nat
  nextProductId : Nat
  nextOrderId : Nat
deriving DecidableEq, Repr

/-! ### Store primitives (MongoDB operations as used by the handlers) -/

/-- `find?` by a numeric key: the first matching document, as MongoDB's
by-id lookups return the unique document with that `_id`. -/
def findByKey {α : Type} (key : α → Nat) (t : Nat) (xs : List α) : Option α :=
  xs.find? (fun x => key x == t)

/-- `findByIdAndUpdate`: rewrite the first document whose key matches,
leave the rest untouched.  On no match the list is unchanged, matching
MongoDB's behaviour of updating nothing. -/
def updateByKey {α : Type} (key : α → Nat) (t : Nat) (f : α → α) : List α → List α
  | [] => []
  | x :: xs => if key x == t then f x :: xs else x :: updateByKey key t f xs

/-- `findByIdAndDelete`: remove the first document whose key matches. -/
def removeByKey {α : Type} (key : α → Nat) (t : Nat) : List α → List α
  | [] => []
  | x :: xs => if key x == t then xs else x :: removeByKey key t xs

def findUserByEmail (s : DB) (e : String) : Option Account :=
  s.users.find? (fun a => a.email == e)

def findUserByEmailRole (s : DB) (e : String) (r : Role) : Option Account :=
  s.users.find? (fun a => a.email == e && a.role == r)

def findUserById (s : DB) (uid : Nat) : Option Account :=
  findByKey Account.id uid s.users

def findProductById (s : DB) (pid : Nat) : Option Product :=
  findByKey Product.id pid s.products

def findOrderById (s : DB) (oid : Nat) : Option Order :=
  findByKey Order.id oid s.orders

/-- `Order.findOne({_id, userId})` in the user routes: first order
matching both the id and the owner. -/
def findOrderByIdAndUser (s : DB) (oid uid : Nat) : Option Order :=
  s.orders.find? (fun o => o.id == oid && o.userId == uid)

/-! ### External primitives -/

/-- Model of the external `bcrypt.hash` primitive: a one-way injective
encoding.  The only properties the code relies on are that comparing a
raw password against a stored hash succeeds exactly for the hashed raw
value, and that the hash is never the raw string itself. -/
def bcryptHash (raw : String) : String := "bcrypt$" ++ raw

/-- Model of `bcrypt.compare raw stored`. -/
def bcryptCompare (raw stored : String) : Bool := stored == bcryptHash raw

/-- The JWT payload signed at login: `{userId, role}`.  Signature and
expiry checking belong to the external library; a present, verifiable
token is a `some` value. -/
structure Token where
  userId : Nat
  role : Role
deriving DecidableEq, Repr

/-! ### HTTP response shape -/

/-- The response outcomes the handlers produce, by HTTP status:
2xx payload, 400, 401, 403, 404.  Strings are the `message` fields. -/
inductive Resp (α : Type) where
  | ok : α → Resp α
  | badRequest : String → Resp α
  | unauthorized : String → Resp α
  | forbidden : String → Resp α
  | notFound : String → Resp α
deriving DecidableEq, Repr

/-! ### middleware/auth.js -/

/-- `authenticate`: no token is a 401; a token whose subject no longer
resolves to an account is a 401; otherwise the resolved account is
attached to the request. -/
def authenticate (s : DB) (tok : Option Token) : Except String Account :=
  match tok with
  | none => .error ("Access denied. No token provided.")
  | some t =>
    match findUserById s t.userId with
    | none => .error ("Invalid token. User not found.")
    | some u => .ok u

/-- `isAdmin` middleware: `some message` is the 403 short-circuit. -/
def isAdmin (a : Account) : Option String :=
  if a.role ≠ Role.admin then some ("Access denied. Admin only.") else none

/-- `isAdminOrSeller` middleware. -/
def isAdminOrSeller (a : Account) : Option String :=
  if a.role ≠ Role.admin ∧ a.role ≠ Role.seller then
    some ("Access denied. Admin or Seller only.")
  else none

/-- `isUser` middleware.  Defined in middleware/auth.js and imported by
userRoutes.js, but never attached to any route. -/
def isUser (a : Account) : Option String :=
  if a.role ≠ Role.user then some ("Access denied. User only.") else none

/-! ### Registration and login handlers -/

/-- POST /api/user/register (userRoutes.js): reject if any account
already has the email, otherwise store the account with the hashed
password and role `user`. -/
def registerUser (s : DB) (name email password : String) : Resp Account × DB :=
  match findUserByEmail s email with
  | some _ => (.badRequest ("User already exists with this email"), s)
  | none =>
    let u : Account :=
      { id := s.nextUserId, name := name, email := email
        password := bcryptHash password, role := Role.user }
    (.ok u, { s with users := s.users ++ [u], nextUserId := s.nextUserId + 1 })

/-- POST /api/seller/register (sellerRoutes.js): same lookup, role
`seller`. -/
def registerSeller (s : DB) (name email password : String) : Resp Account × DB :=
  match findUserByEmail s email with
  | some _ => (.badRequest ("User already exists with this email"), s)
  | none =>
    let u : Account :=
      { id := s.nextUserId, name := name, email := email
        password := bcryptHash password, role := Role.seller }
    (.ok u, { s with users := s.users ++ [u], nextUserId := s.nextUserId + 1 })

/-- POST /api/admin/create (adminRoutes.js): registered with no
middleware, same email lookup, role `admin`. -/
def createAdmin (s : DB) (name email password : String) : Resp Account × DB :=
  match findUserByEmail s email with
  | some _ => (.badRequest ("Admin already exists with this email"), s)
  | none =>
    let u : Account :=
      { id := s.nextUserId, name := name, email := email
        password := bcryptHash password, role := Role.admin }
    (.ok u, { s with users := s.users ++ [u], nextUserId := s.nextUserId + 1 })

/-- POST /api/user/login (userRoutes.js): `findOne({email})` with no
role filter; the same message for the unknown-email and bad-password
branches. -/
def userLogin (s : DB) (email password : String) : Resp Account :=
  match findUserByEmail s email with
  | none => .badRequest ("Invalid email or password")
  | some u =>
    if bcryptCompare password u.password then .ok u
    else .badRequest ("Invalid email or password")

/-- POST /api/admin/login (adminRoutes.js): `findOne({email, role:'admin'})`,
identical message on both failure branches. -/
def adminLogin (s : DB) (email password : String) : Resp Account :=
  match findUserByEmailRole s email Role.admin with
  | none => .badRequest ("Invalid admin credentials")
  | some u =>
    if bcryptCompare password u.password then .ok u
    else .badRequest ("Invalid admin credentials")

/-- POST /api/seller/login (sellerRoutes.js): `findOne({email, role:'seller'})`. -/
def sellerLogin (s : DB) (email password : String) : Resp Account :=
  match findUserByEmailRole s email Role.seller with
  | none => .badRequest ("Invalid seller credentials")
  | some u =>
    if bcryptCompare password u.password then .ok u
    else .badRequest ("Invalid seller credentials")

/-! ### Product handlers -/

/-- POST /api/addproduct handler body (productRoutes.js / sellerRoutes.js):
`new Product(req.body)` then save.  Modelled from the spec for the part
carried by the absent models/product.js schema: the spec declares
quantity-on-hand a non-negative integer, so a stored quantity is the
embedding of a `Nat`. -/
def addProduct (s : DB) (name : String) (price : Int) (descr color : String)
    (qty : Nat) : Resp Product × DB :=
  let p : Product :=
    { id := s.nextProductId, name := name, price := price
      description := descr, color := color, quantity := (qty : Int) }
  (.ok p, { s with products := s.products ++ [p], nextProductId := s.nextProductId + 1 })

/-- The update payload of PUT /product/:id — any subset of the product
fields may appear in `req.body`.  Modelled from the spec for the absent
schema: a supplied quantity is a non-negative integer. -/
structure ProductFields where
  name : Option String
  price : Option Int
  description : Option String
  color : Option String
  quantity : Option Nat
deriving DecidableEq, Repr

def applyFields (f : ProductFields) (p : Product) : Product :=
  { p with
    name := f.name.getD p.name
    price := f.price.getD p.price
    description := f.description.getD p.description
    color := f.color.getD p.color
    quantity := match f.quantity with
      | some q => (q : Int)
      | none => p.quantity }

/-- PUT /api/product/:id handler body (productRoutes.js 184-198, same
body in sellerRoutes.js and adminRoutes.js): `findByIdAndUpdate` with
the request fields, 404 when absent. -/
def updateProduct (s : DB) (pid : Nat) (f : ProductFields) : Resp Product × DB :=
  match findProductById s pid with
  | none => (.notFound ("Product not found"), s)
  | some p =>
    (.ok (applyFields f p),
     { s with products := updateByKey Product.id pid (applyFields f) s.products })

/-- DELETE /api/product/:id handler body: `findByIdAndDelete`. -/
def deleteProduct (s : DB) (pid : Nat) : Resp Unit × DB :=
  match findProductById s pid with
  | none => (.notFound ("Product not found"), s)
  | some _ => (.ok (), { s with products := removeByKey Product.id pid s.products })

/-! ### GET /api/search (productRoutes.js 127-149) -/

/-- One step of the regex engine behind MongoDB `$regex` with
`$options:'i'`, modelled for the pattern fragment the repository's
clients can reach: a literal character matches case-insensitively and
`.` matches any character. -/
def charMatch (pc c : Char) : Bool := pc == '.' || pc.toLower == c.toLower

/-- Anchored regex match of a pattern against the front of a text. -/
def matchHere : List Char → List Char → Bool
  | [], _ => true
  | _ :: _, [] => false
  | pc :: ps, c :: cs => charMatch pc c && matchHere ps cs

/-- Unanchored regex search, as an unanchored `$regex` filter scans the
whole field. -/
def regexFind : List Char → List Char → Bool
  | pat, [] => matchHere pat []
  | pat, c :: cs => matchHere pat (c :: cs) || regexFind pat cs

/-- Model of the `{$regex: pat, $options: 'i'}` filter on a string field. -/
def regexMatchCI (pat text : String) : Bool := regexFind pat.data text.data

/-- Spec-side predicate, stated from the words of the spec for
comparison: case-insensitive literal substring containment (every
pattern character, `.` included, taken literally). -/
def litMatchHere : List Char → List Char → Bool
  | [], _ => true
  | _ :: _, [] => false
  | pc :: ps, c :: cs => (pc.toLower == c.toLower) && litMatchHere ps cs

def litFind : List Char → List Char → Bool
  | pat, [] => litMatchHere pat []
  | pat, c :: cs => litMatchHere pat (c :: cs) || litFind pat cs

def ciSubstringOf (pat text : String) : Bool := litFind pat.data text.data

/-- The query string of GET /api/search.  `none` is an absent parameter;
an empty provided string is falsy in the handler and skips the filter,
which the matcher below reproduces. -/
structure SearchQuery where
  name : Option String
  minPrice : Option Int
  maxPrice : Option Int
  color : Option String
deriving DecidableEq, Repr

/-- One optional `$regex ... $options:'i'` condition of the filter
document (used for both name and color); an absent or empty (falsy)
query string imposes no condition. -/
def regexCond (o : Option String) (t : String) : Bool :=
  match o with
  | none => true
  | some n => if n.isEmpty then true else regexMatchCI n t

/-- The optional `$gte` bound of the price condition. -/
def minCond (o : Option Int) (v : Int) : Bool :=
  match o with
  | none => true
  | some m => m ≤ v

/-- The optional `$lte` bound of the price condition. -/
def maxCond (o : Option Int) (v : Int) : Bool :=
  match o with
  | none => true
  | some m => v ≤ m

/-- The filter document the handler builds: name/color become
case-insensitive `$regex` conditions, minPrice/maxPrice become inclusive
`$gte`/`$lte` bounds, all ANDed by `Product.find`. -/
def matchesSearch (q : SearchQuery) (p : Product) : Bool :=
  regexCond q.name p.name && minCond q.minPrice p.price &&
    maxCond q.maxPrice p.price && regexCond q.color p.color

/-- GET /api/search: `Product.find(filter)`. -/
def searchProducts (s : DB) (q : SearchQuery) : List Product :=
  s.products.filter (matchesSearch q)

/-! ### POST /api/user/buy (userRoutes.js 286-332) -/

inductive BuyErr where
  | productNotFound : Nat → BuyErr
  | insufficientStock : String → BuyErr
deriving DecidableEq, Repr

/-- The per-line loop of the buy handler: look the product up, reject a
missing product or short stock, push the snapshot, accumulate the total
and write back `product.quantity - item.quantity`.  The state is
threaded, so each iteration sees the previous line's decrement. -/
def processLines (s : DB) : List LineReq → List LineItem → Int →
    (Except BuyErr (List LineItem × Int)) × DB
  | [], acc, total => (.ok (acc, total), s)
  | item :: rest, acc, total =>
    match findProductById s item.productId with
    | none => (.error (.productNotFound item.productId), s)
    | some product =>
      if product.quantity < (item.quantity : Int) then
        (.error (.insufficientStock product.name), s)
      else
        let products' :=
          updateByKey Product.id product.id
            (fun p => { p with quantity := product.quantity - (item.quantity : Int) })
            s.products
        processLines { s with products := products' } rest
          (acc ++ [{ productId := product.id, name := product.name
                     price := product.price, quantity := item.quantity }])
          (total + product.price * (item.quantity : Int))

/-- The two error responses of the buy handler. -/
def respOfBuyErr {α : Type} : BuyErr → Resp α
  | .productNotFound pid => .notFound ("Product not found: " ++ toString pid)
  | .insufficientStock n => .badRequest ("Insufficient stock for " ++ n)

/-- The buy handler body: empty cart is a 400; otherwise run the
per-line loop and on success persist a new order.  Modelled from the
spec for the part carried by the absent models/order.js schema: the
spec persists the new order with status `pending`, so the schema
default used by `new Order({...})` is `pending`. -/
def buy (s : DB) (uid : Nat) (lines : List LineReq) (addr : String) :
    Resp Order × DB :=
  if lines.isEmpty then (.badRequest ("No products to buy"), s)
  else
    match processLines s lines [] 0 with
    | (.error e, s') => (respOfBuyErr e, s')
    | (.ok (items, total), s') =>
      let o : Order :=
        { id := s'.nextOrderId, userId := uid, products := items
          totalAmount := total, shippingAddress := addr, status := .pending }
      (.ok o, { s' with orders := s'.orders ++ [o], nextOrderId := s'.nextOrderId + 1 })

/-! ### PUT /api/user/order/:id/cancel (userRoutes.js 421-443) -/

/-- The restore loop of the cancel handler: `$inc` each line's product
quantity by the line quantity; a since-deleted product is silently
skipped (the update matches nothing). -/
def restoreStock : List Product → List LineItem → List Product
  | ps, [] => ps
  | ps, item :: rest =>
    restoreStock
      (updateByKey Product.id item.productId
        (fun p => { p with quantity := p.quantity + (item.quantity : Int) }) ps)
      rest

/-- The cancel handler body: 404 when no order with that id is owned by
the caller, 400 when the order is not pending, otherwise restore every
line's stock and save the order with status `cancelled`. -/
def cancelOrder (s : DB) (uid oid : Nat) : Resp Order × DB :=
  match findOrderByIdAndUser s oid uid with
  | none => (.notFound ("Order not found"), s)
  | some o =>
    if o.status ≠ OrderStatus.pending then
      (.badRequest ("Cannot cancel order. Order already processed."), s)
    else
      let products' := restoreStock s.products o.products
      let orders' :=
        updateByKey Order.id o.id (fun q => { q with status := .cancelled }) s.orders
      (.ok { o with status := .cancelled },
       { s with products := products', orders := orders' })

/-! ### PUT /api/admin/order/:id/status (adminRoutes.js 541-563) -/

/-- The status whitelist of the admin handler:
`['pending', 'confirmed', 'shipped', 'delivered', 'cancelled'].includes(status)`. -/
def parseStatus (st : String) : Option OrderStatus :=
  if st = "pending" then some .pending
  else if st = "confirmed" then some .confirmed
  else if st = "shipped" then some .shipped
  else if st = "delivered" then some .delivered
  else if st = "cancelled" then some .cancelled
  else none

/-- The admin status handler body: 400 on a status outside the
whitelist, 404 on a missing order, otherwise overwrite the status
unconditionally (`findByIdAndUpdate(id, {status})`). -/
def setOrderStatus (s : DB) (oid : Nat) (st : String) : Resp Order × DB :=
  match parseStatus st with
  | none => (.badRequest ("Invalid status"), s)
  | some σ =>
    match findOrderById s oid with
    | none => (.notFound ("Order not found"), s)
    | some o =>
      (.ok { o with status := σ },
       { s with orders := updateByKey Order.id oid (fun q => { q with status := σ }) s.orders })

/-! ### Route registrations (index.js + the routers): middleware chains -/

/-- POST /api/user/buy is registered with `authenticate` only — no role
middleware (userRoutes.js line 286). -/
def buyEndpoint (s : DB) (tok : Option Token) (lines : List LineReq)
    (addr : String) : Resp Order × DB :=
  match authenticate s tok with
  | .error m => (.unauthorized m, s)
  | .ok u => buy s u.id lines addr

/-- PUT /api/user/order/:id/cancel is registered with `authenticate`
only (userRoutes.js line 421). -/
def cancelEndpoint (s : DB) (tok : Option Token) (oid : Nat) : Resp Order × DB :=
  match authenticate s tok with
  | .error m => (.unauthorized m, s)
  | .ok u => cancelOrder s u.id oid

/-- POST /api/admin/create is registered with no middleware at all
(adminRoutes.js line 98); the token argument is ignored. -/
def createAdminEndpoint (s : DB) (_tok : Option Token) (name email password : String) :
    Resp Account × DB :=
  createAdmin s name email password

/-- POST /api/addproduct is registered with `authenticate, isAdminOrSeller`
(productRoutes.js line 30) — the route shape that does produce 403s. -/
def addProductEndpoint (s : DB) (tok : Option Token) (name : String) (price : Int)
    (descr color : String) (qty : Nat) : Resp Product × DB :=
  match authenticate s tok with
  | .error m => (.unauthorized m, s)
  | .ok u =>
    match isAdminOrSeller u with
    | some m => (.forbidden m, s)
    | none => addProduct s name price descr color qty

/-! ### The operations of the system, as one step relation -/

/-- The state-mutating operations reachable through the HTTP surface. -/
inductive Op where
  | registerUserOp (name email password : String)
  | registerSellerOp (name email password : String)
  | createAdminOp (name email password : String)
  | addProductOp (name : String) (price : Int) (descr color : String) (qty : Nat)
  | updateProductOp (pid : Nat) (f : ProductFields)
  | deleteProductOp (pid : Nat)
  | buyOp (uid : Nat) (lines : List LineReq) (addr : String)
  | cancelOp (uid oid : Nat)
  | setStatusOp (oid : Nat) (st : String)
deriving DecidableEq, Repr

/-- The database after an operation, whether the handler answered with a
success or an error response. -/
def step (s : DB) : Op → DB
  | .registerUserOp n e p => (registerUser s n e p).2
  | .registerSellerOp n e p => (registerSeller s n e p).2
  | .createAdminOp n e p => (createAdmin s n e p).2
  | .addProductOp n pr d c q => (addProduct s n pr d c q).2
  | .updateProductOp pid f => (updateProduct s pid f).2
  | .deleteProductOp pid => (deleteProduct s pid).2
  | .buyOp uid lines addr => (buy s uid lines addr).2
  | .cancelOp uid oid => (cancelOrder s uid oid).2
  | .setStatusOp oid st => (setOrderStatus s oid st).2

/-! ### Observation functions used by the claims -/

def qtyAtList (ps : List Product) (pid : Nat) : Option Int :=
  (findByKey Product.id pid ps).map Product.quantity

/-- The quantity-on-hand of the product with a given id, when present. -/
def qtyAt (s : DB) (pid : Nat) : Option Int := qtyAtList s.products pid

/-- The price of the product with a given id at a given state (zero when
absent; the claims only read it under an existence hypothesis). -/
def priceAt (s : DB) (pid : Nat) : Int :=
  ((findProductById s pid).map Product.price).getD 0

/-- The stored status of the order with a given id. -/
def statusOf (s : DB) (oid : Nat) : Option OrderStatus :=
  (findOrderById s oid).map Order.status

/-- Requested quantity per product id, summed over a pair list. -/
def pairSum : List (Nat × Nat) → Nat → Nat
  | [], _ => 0
  | (pid, q) :: rest, t => (if pid = t then q else 0) + pairSum rest t

def reqSum (lines : List LineReq) (pid : Nat) : Nat :=
  pairSum (lines.map (fun l => (l.productId, l.quantity))) pid

def itemSum (items : List LineItem) (pid : Nat) : Nat :=
  pairSum (items.map (fun i => (i.productId, i.quantity))) pid

/-- All stored quantities are non-negative. -/
def quantitiesNonneg (s : DB) : Prop := ∀ p ∈ s.products, 0 ≤ p.quantity

instance : DecidablePred quantitiesNonneg := fun s =>
  inferInstanceAs (Decidable (∀ p ∈ s.products, 0 ≤ p.quantity))

/-- Fresh-id well-formedness for orders: every stored order id is below
the counter, as holds for states built by the system. -/
def ordersFresh (s : DB) : Prop := ∀ o ∈ s.orders, o.id < s.nextOrderId

instance : DecidablePred ordersFresh := fun s =>
  inferInstanceAs (Decidable (∀ o ∈ s.orders, o.id < s.nextOrderId))

/-- One step of the buy loop, seen as a state transformer: the state is
unchanged on a failing line and carries the decrement on a passing one. -/
def stepLine (s : DB) (l : LineReq) : DB :=
  match findProductById s l.productId with
  | none => s
  | some product =>
    if product.quantity < (l.quantity : Int) then s
    else
      let products' :=
        updateByKey Product.id product.id
          (fun p => { p with quantity := product.quantity - (l.quantity : Int) })
          s.products
      { s with products := products' }

/-- Whether a line passes the lookup and the stock check at a state. -/
def passesLine (s : DB) (l : LineReq) : Bool :=
  match findProductById s l.productId with
  | none => false
  | some product => if product.quantity < (l.quantity : Int) then false else true

/-- The error a failing line raises at a state. -/
def lineFailErr (s : DB) (l : LineReq) : BuyErr :=
  match findProductById s l.productId with
  | none => .productNotFound l.productId
  | some product => .insufficientStock product.name

/-- The state after the first `k` lines of a buy request. -/
def stateAfter (s : DB) (lines : List LineReq) (k : Nat) : DB :=
  (lines.take k).foldl stepLine s

/-- `true` unless the operation is an admin status overwrite back to
`pending`. -/
def allowsOp : Op → Bool
  | .setStatusOp _ st => st != "pending"
  | _ => true

/-! ### Concrete example data used by the witnesses -/

def exUser : Account :=
  { id := 0, name := "Alice", email := "a@x.com"
    password := bcryptHash "pw123", role := .user }

def exAdmin : Account :=
  { id := 1, name := "Root", email := "r@x.com"
    password := bcryptHash "rootpw", role := .admin }

def exSeller : Account :=
  { id := 2, name := "Sam", email := "s@x.com"
    password := bcryptHash "sellpw", role := .seller }

def exProd : Product :=
  { id := 0, name := "Widget", price := 20, description := "w"
    color := "Red", quantity := 5 }

def exDB : DB :=
  { users := [exUser, exAdmin, exSeller], products := [exProd], orders := []
    nextUserId := 3, nextProductId := 1, nextOrderId := 0 }

/-- A state holding one already-cancelled order, for the claims about
status transitions. -/
def exOrderC : Order :=
  { id := 0, userId := 0
    products := [{ productId := 0, name := "Widget", price := 20, quantity := 3 }]
    totalAmount := 60, shippingAddress := "somewhere", status := .cancelled }

def exDB2 : DB := { exDB with orders := [exOrderC], nextOrderId := 1 }

/-- The order that buying 3 Widgets at the example state creates. -/
def exOrder0 : Order :=
  { id := 0, userId := 0
    products := [{ productId := 0, name := "Widget", price := 20, quantity := 3 }]
    totalAmount := 60, shippingAddress := "addr", status := .pending }

/-- The example state after only the first line of a two-line buy
committed its decrement (the second line then fails): stock 2, no
order. -/
def exDBpartial : DB :=
  { exDB with products := [{ id := 0, name := "Widget", price := 20, description := "w"
                             color := "Red", quantity := 2 }] }

/-- The example state after that buy: stock 5 − 3 = 2, one pending order. -/
def exDBafterBuy : DB :=
  { users := [exUser, exAdmin, exSeller]
    products := [{ id := 0, name := "Widget", price := 20, description := "w"
                   color := "Red", quantity := 2 }]
    orders := [exOrder0]
    nextUserId := 3, nextProductId := 1, nextOrderId := 1 }

/-! ## Theorems -/

/-! ### Generic store lemmas -/

theorem findByKey_cons {α : Type} (key : α → Nat) (t : Nat) (x : α) (xs : List α) :
    findByKey key t (x :: xs) = if key x == t then some x else findByKey key t xs := by
  by_cases hx : (key x == t) = true
  · rw [if_pos hx]
    exact List.find?_cons_of_pos _ hx
  · rw [if_neg hx]
    exact List.find?_cons_of_neg _ (by simpa using hx)

theorem findByKey_key {α : Type} {key : α → Nat} {t : Nat} {xs : List α} {x : α}
    (h : findByKey key t xs = some x) : key x = t := by
  have h' : xs.find? (fun a => key a == t) = some x := h
  simpa using List.find?_some h'

theorem updateByKey_of_find_none {α : Type} {key : α → Nat} {t : Nat} (f : α → α) :
    ∀ {xs : List α}, findByKey key t xs = none → updateByKey key t f xs = xs := by
  intro xs
  induction xs with
  | nil => intro _; rfl
  | cons x xs ih =>
    intro h
    rw [findByKey_cons] at h
    by_cases hx : (key x == t) = true
    · rw [if_pos hx] at h
      exact absurd h (by simp)
    · rw [if_neg hx] at h
      simp only [updateByKey, if_neg hx]
      rw [ih h]

theorem findByKey_updateByKey {α : Type} {key : α → Nat} {t : Nat} {f : α → α}
    (hf : ∀ a, key (f a) = key a) :
    ∀ (xs : List α), findByKey key t (updateByKey key t f xs) = (findByKey key t xs).map f := by
  intro xs
  induction xs with
  | nil => rfl
  | cons x xs ih =>
    by_cases hx : (key x == t) = true
    · have hfx : (key (f x) == t) = true := by rw [hf]; exact hx
      simp only [updateByKey, if_pos hx]
      rw [findByKey_cons, findByKey_cons, if_pos hfx, if_pos hx]
      rfl
    · simp only [updateByKey, if_neg hx]
      rw [findByKey_cons, findByKey_cons, if_neg hx, if_neg hx, ih]

theorem findByKey_updateByKey_ne {α : Type} {key : α → Nat} {t t' : Nat} {f : α → α}
    (hf : ∀ a, key (f a) = key a) (h : t' ≠ t) :
    ∀ (xs : List α), findByKey key t' (updateByKey key t f xs) = findByKey key t' xs := by
  intro xs
  induction xs with
  | nil => rfl
  | cons x xs ih =>
    by_cases hx : (key x == t) = true
    · have hkx : key x = t := by simpa using hx
      have hne : ¬ ((key x == t') = true) := by
        simp only [beq_iff_eq, hkx]
        exact fun hh => h hh.symm
      have hne2 : ¬ ((key (f x) == t') = true) := by rw [hf]; exact hne
      simp only [updateByKey, if_pos hx]
      rw [findByKey_cons, findByKey_cons, if_neg hne2, if_neg hne]
    · simp only [updateByKey, if_neg hx]
      rw [findByKey_cons, findByKey_cons, ih]

theorem mem_updateByKey {α : Type} {key : α → Nat} {t : Nat} {f : α → α} {y : α} :
    ∀ {xs : List α}, y ∈ updateByKey key t f xs → y ∈ xs ∨ ∃ x ∈ xs, y = f x := by
  intro xs
  induction xs with
  | nil => intro h; simp [updateByKey] at h
  | cons x xs ih =>
    intro h
    by_cases hx : (key x == t) = true
    · simp only [updateByKey] at h
      rw [if_pos hx] at h
      rcases List.mem_cons.mp h with h1 | h2
      · exact Or.inr ⟨x, List.mem_cons_self x xs, h1⟩
      · exact Or.inl (List.mem_cons_of_mem _ h2)
    · simp only [updateByKey] at h
      rw [if_neg hx] at h
      rcases List.mem_cons.mp h with h1 | h2
      · exact Or.inl (by simp [h1])
      · rcases ih h2 with h3 | ⟨z, hz, hyz⟩
        · exact Or.inl (List.mem_cons_of_mem _ h3)
        · exact Or.inr ⟨z, List.mem_cons_of_mem _ hz, hyz⟩

theorem mem_removeByKey {α : Type} {key : α → Nat} {t : Nat} {y : α} :
    ∀ {xs : List α}, y ∈ removeByKey key t xs → y ∈ xs := by
  intro xs
  induction xs with
  | nil => intro h; simp [removeByKey] at h
  | cons x xs ih =>
    intro h
    by_cases hx : (key x == t) = true
    · simp only [removeByKey] at h
      rw [if_pos hx] at h
      exact List.mem_cons_of_mem _ h
    · simp only [removeByKey] at h
      rw [if_neg hx] at h
      rcases List.mem_cons.mp h with h1 | h2
      · exact List.mem_cons.mpr (Or.inl h1)
      · exact List.mem_cons_of_mem _ (ih h2)

theorem findByKey_append {α : Type} (key : α → Nat) (t : Nat) (l1 l2 : List α) :
    findByKey key t (l1 ++ l2) = (findByKey key t l1).or (findByKey key t l2) := by
  simp [findByKey, List.find?_append]

/-! ### Lookup lemmas for accounts -/

theorem findUserByEmail_eq_none {s : DB} {e : String}
    (h : ¬ ∃ a ∈ s.users, a.email = e) : findUserByEmail s e = none := by
  unfold findUserByEmail
  rw [List.find?_eq_none]
  intro a ha
  simp only [beq_iff_eq]
  exact fun hae => h ⟨a, ha, hae⟩

theorem findUserByEmail_isSome {s : DB} {e : String}
    (h : ∃ a ∈ s.users, a.email = e) : ∃ u, findUserByEmail s e = some u := by
  have h' : (s.users.find? (fun a => a.email == e)).isSome := by
    rw [List.find?_isSome]
    rcases h with ⟨a, ha, hae⟩
    exact ⟨a, ha, by simpa using hae⟩
  rcases Option.isSome_iff_exists.mp h' with ⟨u, hu⟩
  exact ⟨u, hu⟩

theorem findUserByEmailRole_eq_none {s : DB} {e : String} {r : Role}
    (h : ¬ ∃ a ∈ s.users, a.email = e ∧ a.role = r) :
    findUserByEmailRole s e r = none := by
  unfold findUserByEmailRole
  rw [List.find?_eq_none]
  intro a ha
  simp only [Bool.and_eq_true, beq_iff_eq, not_and]
  exact fun hae har => h ⟨a, ha, hae, har⟩

theorem findUserByEmailRole_some {s : DB} {e : String} {r : Role} {u : Account}
    (h : findUserByEmailRole s e r = some u) : u.email = e ∧ u.role = r := by
  have h' : s.users.find? (fun a => a.email == e && a.role == r) = some u := h
  simpa [Bool.and_eq_true] using List.find?_some h'

/-! ### bcrypt model facts -/

theorem bcryptHash_ne (p : String) : bcryptHash p ≠ p := by
  intro h
  have hl : (bcryptHash p).length = p.length := by rw [h]
  rw [bcryptHash, String.length_append] at hl
  have h7 : ("bcrypt$").length = 7 := rfl
  omega

/-! ### Login message-constancy lemmas -/

theorem userLogin_badRequest {s : DB} {e p m : String}
    (h : userLogin s e p = Resp.badRequest m) : m = "Invalid email or password" := by
  unfold userLogin at h
  rcases hf : findUserByEmail s e with _ | u <;> rw [hf] at h <;> dsimp only at h
  · injection h with h'
    exact h'.symm
  · by_cases hc : bcryptCompare p u.password = true
    · rw [if_pos hc] at h
      exact absurd h (by simp)
    · rw [if_neg hc] at h
      injection h with h'
      exact h'.symm

theorem adminLogin_badRequest {s : DB} {e p m : String}
    (h : adminLogin s e p = Resp.badRequest m) : m = "Invalid admin credentials" := by
  unfold adminLogin at h
  rcases hf : findUserByEmailRole s e Role.admin with _ | u <;> rw [hf] at h <;> dsimp only at h
  · injection h with h'
    exact h'.symm
  · by_cases hc : bcryptCompare p u.password = true
    · rw [if_pos hc] at h
      exact absurd h (by simp)
    · rw [if_neg hc] at h
      injection h with h'
      exact h'.symm

theorem sellerLogin_badRequest {s : DB} {e p m : String}
    (h : sellerLogin s e p = Resp.badRequest m) : m = "Invalid seller credentials" := by
  unfold sellerLogin at h
  rcases hf : findUserByEmailRole s e Role.seller with _ | u <;> rw [hf] at h <;> dsimp only at h
  · injection h with h'
    exact h'.symm
  · by_cases hc : bcryptCompare p u.password = true
    · rw [if_pos hc] at h
      exact absurd h (by simp)
    · rw [if_neg hc] at h
      injection h with h'
      exact h'.symm

/-- C6: on each login endpoint the failure message is one constant
(identical whether the email finds no account in the endpoint's scope or
the hash comparison fails); a successful admin login is an admin account,
a successful seller login is a seller account, and the user endpoint's
scope is the whole account store (its lookup carries no role filter), so
a successful user login only pins the email and the password hash. -/
theorem c6_login_scope_and_messages :
    ∀ (s s2 : DB) (e p e2 p2 m m2 : String),
      (userLogin s e p = Resp.badRequest m →
        userLogin s2 e2 p2 = Resp.badRequest m2 → m = m2) ∧
      (adminLogin s e p = Resp.badRequest m →
        adminLogin s2 e2 p2 = Resp.badRequest m2 → m = m2) ∧
      (sellerLogin s e p = Resp.badRequest m →
        sellerLogin s2 e2 p2 = Resp.badRequest m2 → m = m2) ∧
      ((¬ ∃ a ∈ s.users, a.email = e) →
        userLogin s e p = Resp.badRequest ("Invalid email or password")) ∧
      ((¬ ∃ a ∈ s.users, a.email = e ∧ a.role = Role.admin) →
        adminLogin s e p = Resp.badRequest ("Invalid admin credentials")) ∧
      ((¬ ∃ a ∈ s.users, a.email = e ∧ a.role = Role.seller) →
        sellerLogin s e p = Resp.badRequest ("Invalid seller credentials")) ∧
      (∀ u, findUserByEmail s e = some u → bcryptCompare p u.password = false →
        userLogin s e p = Resp.badRequest ("Invalid email or password")) ∧
      (∀ u, findUserByEmailRole s e Role.admin = some u → bcryptCompare p u.password = false →
        adminLogin s e p = Resp.badRequest ("Invalid admin credentials")) ∧
      (∀ u, findUserByEmailRole s e Role.seller = some u → bcryptCompare p u.password = false →
        sellerLogin s e p = Resp.badRequest ("Invalid seller credentials")) ∧
      (∀ u, adminLogin s e p = Resp.ok u → u.role = Role.admin) ∧
      (∀ u, sellerLogin s e p = Resp.ok u → u.role = Role.seller) ∧
      (∀ u, userLogin s e p = Resp.ok u → u.email = e ∧ bcryptCompare p u.password = true) := by
  intro s s2 e p e2 p2 m m2
  refine ⟨?_, ?_, ?_, ?_, ?_, ?_, ?_, ?_, ?_, ?_, ?_, ?_⟩
  · intro h1 h2; rw [userLogin_badRequest h1, userLogin_badRequest h2]
  · intro h1 h2; rw [adminLogin_badRequest h1, adminLogin_badRequest h2]
  · intro h1 h2; rw [sellerLogin_badRequest h1, sellerLogin_badRequest h2]
  · intro h; unfold userLogin; rw [findUserByEmail_eq_none h]
  · intro h; unfold adminLogin; rw [findUserByEmailRole_eq_none h]
  · intro h; unfold sellerLogin; rw [findUserByEmailRole_eq_none h]
  · intro u hu hc; simp [userLogin, hu, hc]
  · intro u hu hc; simp [adminLogin, hu, hc]
  · intro u hu hc; simp [sellerLogin, hu, hc]
  · intro u hu
    unfold adminLogin at hu
    rcases hf : findUserByEmailRole s e Role.admin with _ | v <;> rw [hf] at hu <;> dsimp only at hu
    · exact absurd hu (by simp)
    · by_cases hc : bcryptCompare p v.password = true
      · rw [if_pos hc] at hu
        injection hu with h'
        subst h'
        exact (findUserByEmailRole_some hf).2
      · rw [if_neg hc] at hu
        exact absurd hu (by simp)
  · intro u hu
    unfold sellerLogin at hu
    rcases hf : findUserByEmailRole s e Role.seller with _ | v <;> rw [hf] at hu <;> dsimp only at hu
    · exact absurd hu (by simp)
    · by_cases hc : bcryptCompare p v.password = true
      · rw [if_pos hc] at hu
        injection hu with h'
        subst h'
        exact (findUserByEmailRole_some hf).2
      · rw [if_neg hc] at hu
        exact absurd hu (by simp)
  · intro u hu
    unfold userLogin at hu
    rcases hf : findUserByEmail s e with _ | v <;> rw [hf] at hu <;> dsimp only at hu
    · exact absurd hu (by simp)
    · by_cases hc : bcryptCompare p v.password = true
      · rw [if_pos hc] at hu
        injection hu with h'
        subst h'
        have h' : s.users.find? (fun a => a.email == e) = some v := hf
        exact ⟨by simpa using List.find?_some h', hc⟩
      · rw [if_neg hc] at hu
        exact absurd hu (by simp)

theorem c6_witness :
    exAdmin.role = Role.admin ∧
    userLogin exDB "zz@x.com" "whatever" = Resp.badRequest ("Invalid email or password") := by
  constructor
  · exact (c6_login_scope_and_messages exDB exDB "r@x.com" "rootpw" "" "" "" "").2.2.2.2.2.2.2.2.2.1
      exAdmin (by decide)
  · exact (c6_login_scope_and_messages exDB exDB "zz@x.com" "whatever" "" "" "" "").2.2.2.1
      (by decide)

/-- C7: registration (user and seller endpoints) conflicts whenever any
account already holds the exact email, regardless of either account's
role, and a successful registration stores the one-way hash of the raw
password, never the raw password itself. -/
theorem c7_register_conflict_and_hash :
    ∀ (s : DB) (n e p : String),
      ((∃ a ∈ s.users, a.email = e) →
        registerUser s n e p = (Resp.badRequest ("User already exists with this email"), s) ∧
        registerSeller s n e p = (Resp.badRequest ("User already exists with this email"), s)) ∧
      (∀ a s', registerUser s n e p = (Resp.ok a, s') →
        a.password = bcryptHash p ∧ a.password ≠ p ∧ a ∈ s'.users ∧ a.role = Role.user) ∧
      (∀ a s', registerSeller s n e p = (Resp.ok a, s') →
        a.password = bcryptHash p ∧ a.password ≠ p ∧ a ∈ s'.users ∧ a.role = Role.seller) := by
  intro s n e p
  refine ⟨?_, ?_, ?_⟩
  · intro h
    rcases findUserByEmail_isSome h with ⟨u, hu⟩
    constructor
    · unfold registerUser; rw [hu]
    · unfold registerSeller; rw [hu]
  · intro a s' h
    unfold registerUser at h
    rcases hf : findUserByEmail s e with _ | u <;> rw [hf] at h <;> dsimp only at h
    · simp only [Prod.mk.injEq, Resp.ok.injEq] at h
      rcases h with ⟨ha, hs⟩
      subst ha hs
      refine ⟨rfl, bcryptHash_ne p, by simp, rfl⟩
    · exact absurd h (by simp)
  · intro a s' h
    unfold registerSeller at h
    rcases hf : findUserByEmail s e with _ | u <;> rw [hf] at h <;> dsimp only at h
    · simp only [Prod.mk.injEq, Resp.ok.injEq] at h
      rcases h with ⟨ha, hs⟩
      subst ha hs
      refine ⟨rfl, bcryptHash_ne p, by simp, rfl⟩
    · exact absurd h (by simp)

theorem c7_witness :
    registerUser exDB "Bob" "a@x.com" "secret"
        = (Resp.badRequest ("User already exists with this email"), exDB) ∧
    ∀ (a : Account) (s' : DB), registerUser exDB "Bob" "b@x.com" "secret" = (Resp.ok a, s') →
      a.password = bcryptHash "secret" ∧ a.password ≠ "secret" := by
  constructor
  · exact ((c7_register_conflict_and_hash exDB "Bob" "a@x.com" "secret").1
      ⟨exUser, by decide, rfl⟩).1
  · intro a s' h
    have hh := (c7_register_conflict_and_hash exDB "Bob" "b@x.com" "secret").2.1 a s' h
    exact ⟨hh.1, hh.2.1⟩

/-- C9: POST /api/admin/create is registered with no middleware: it never
answers 401 or 403 for any caller, and when the email is unused it
creates an account whose role is `admin`. -/
theorem c9_create_admin_open :
    ∀ (s : DB) (tok : Option Token) (n e p : String),
      (∀ m, (createAdminEndpoint s tok n e p).1 ≠ Resp.unauthorized m) ∧
      (∀ m, (createAdminEndpoint s tok n e p).1 ≠ Resp.forbidden m) ∧
      ((¬ ∃ a ∈ s.users, a.email = e) →
        ∃ a s', createAdminEndpoint s tok n e p = (Resp.ok a, s') ∧
          a.role = Role.admin ∧ a ∈ s'.users) := by
  intro s tok n e p
  refine ⟨?_, ?_, ?_⟩
  · intro m
    unfold createAdminEndpoint createAdmin
    rcases hf : findUserByEmail s e with _ | u <;> simp
  · intro m
    unfold createAdminEndpoint createAdmin
    rcases hf : findUserByEmail s e with _ | u <;> simp
  · intro h
    unfold createAdminEndpoint createAdmin
    rw [findUserByEmail_eq_none h]
    exact ⟨_, _, rfl, rfl, by simp⟩

theorem c9_witness :
    ∃ a s', createAdminEndpoint exDB none "Eve" "eve@x.com" "evepw" = (Resp.ok a, s') ∧
      a.role = Role.admin ∧ a ∈ s'.users :=
  (c9_create_admin_open exDB none "Eve" "eve@x.com" "evepw").2.2 (by decide)

/-- The buy handler body never produces a 403. -/
theorem buy_fst_ne_forbidden (s : DB) (uid : Nat) (lines : List LineReq)
    (addr : String) (m : String) : (buy s uid lines addr).1 ≠ Resp.forbidden m := by
  unfold buy
  split
  · simp
  · rcases hp : processLines s lines [] 0 with ⟨r, s'⟩
    rcases r with e | v
    · rcases e with pid | nm <;> simp [respOfBuyErr]
    · rcases v with ⟨items, total⟩; simp

/-- The cancel handler body never produces a 403. -/
theorem cancelOrder_fst_ne_forbidden (s : DB) (uid oid : Nat) (m : String) :
    (cancelOrder s uid oid).1 ≠ Resp.forbidden m := by
  unfold cancelOrder
  rcases hf : findOrderByIdAndUser s oid uid with _ | o <;> dsimp only
  · simp
  · split <;> simp

/-- C10: the buy and cancel routes attach `authenticate` only — the
`isUser` role predicate exists in the middleware but is not attached —
so no caller of any role ever receives a 403 from them. -/
theorem c10_buy_cancel_never_forbidden :
    ∀ (s : DB) (tok : Option Token) (lines : List LineReq) (addr : String)
      (oid : Nat) (m : String),
      (buyEndpoint s tok lines addr).1 ≠ Resp.forbidden m ∧
      (cancelEndpoint s tok oid).1 ≠ Resp.forbidden m := by
  intro s tok lines addr oid m
  constructor
  · unfold buyEndpoint
    rcases ha : authenticate s tok with m' | u
    · simp
    · exact buy_fst_ne_forbidden s u.id lines addr m
  · unfold cancelEndpoint
    rcases ha : authenticate s tok with m' | u
    · simp
    · exact cancelOrder_fst_ne_forbidden s u.id oid m

/-! ### C8: search semantics -/

theorem regexCond_iff (o : Option String) (t : String) :
    regexCond o t = true ↔
      (∀ n, o = some n → n.isEmpty = false → regexMatchCI n t = true) := by
  cases o with
  | none => simp [regexCond]
  | some n =>
    by_cases hn : n.isEmpty
    · simp [regexCond, hn]
    · simp [regexCond, hn, Bool.not_eq_true]

theorem minCond_iff (o : Option Int) (v : Int) :
    minCond o v = true ↔ (∀ m, o = some m → m ≤ v) := by
  cases o <;> simp [minCond]

theorem maxCond_iff (o : Option Int) (v : Int) :
    maxCond o v = true ↔ (∀ m, o = some m → v ≤ m) := by
  cases o <;> simp [maxCond]

theorem matchHere_eq_lit :
    ∀ (pat text : List Char), '.' ∉ pat → matchHere pat text = litMatchHere pat text := by
  intro pat
  induction pat with
  | nil => intro text _; cases text <;> rfl
  | cons pc ps ih =>
    intro text hdot
    cases text with
    | nil => rfl
    | cons c cs =>
      have hpc : (pc == '.') = false := by
        simp only [beq_eq_false_iff_ne, ne_eq]
        exact fun h => hdot (h ▸ List.mem_cons_self _ _)
      have htl : '.' ∉ ps := fun h => hdot (List.mem_cons_of_mem _ h)
      show (charMatch pc c && matchHere ps cs) = ((pc.toLower == c.toLower) && litMatchHere ps cs)
      rw [charMatch, hpc, Bool.false_or, ih cs htl]

theorem regexFind_eq_lit :
    ∀ (text pat : List Char), '.' ∉ pat → regexFind pat text = litFind pat text := by
  intro text
  induction text with
  | nil =>
    intro pat h
    show matchHere pat [] = litMatchHere pat []
    exact matchHere_eq_lit pat [] h
  | cons c cs ih =>
    intro pat h
    show (matchHere pat (c :: cs) || regexFind pat cs) = (litMatchHere pat (c :: cs) || litFind pat cs)
    rw [matchHere_eq_lit pat (c :: cs) h, ih pat h]

/-- C8 (amended): the name and color filters are case-insensitive REGEX
matches — the query string is a regex pattern, which coincides with
literal substring matching exactly when the pattern has no
metacharacters — while the price bounds are inclusive, the filters are
ANDed, a filterless search is the whole catalog, and
minPrice=10, maxPrice=10 selects exactly the price-10 products. -/
theorem c8_search_regex_semantics :
    ∀ (s : DB) (q : SearchQuery) (p : Product),
      (p ∈ searchProducts s q ↔ p ∈ s.products ∧
        (∀ n, q.name = some n → n.isEmpty = false → regexMatchCI n p.name = true) ∧
        (∀ m, q.minPrice = some m → m ≤ p.price) ∧
        (∀ m, q.maxPrice = some m → p.price ≤ m) ∧
        (∀ c, q.color = some c → c.isEmpty = false → regexMatchCI c p.color = true)) ∧
      searchProducts s { name := none, minPrice := none, maxPrice := none, color := none }
        = s.products ∧
      (p ∈ searchProducts s { name := none, minPrice := some 10, maxPrice := some 10, color := none }
        ↔ p ∈ s.products ∧ p.price = 10) ∧
      (∀ (pat text : String), '.' ∉ pat.data →
        regexMatchCI pat text = ciSubstringOf pat text) := by
  intro s q p
  refine ⟨?_, ?_, ?_, ?_⟩
  · rw [searchProducts, List.mem_filter, matchesSearch]
    simp only [Bool.and_eq_true, regexCond_iff, minCond_iff, maxCond_iff, and_assoc]
  · rw [searchProducts]
    have h : ∀ x : Product, matchesSearch
        { name := none, minPrice := none, maxPrice := none, color := none } x = true := by
      intro x; rfl
    simp [h]
  · rw [searchProducts, List.mem_filter, matchesSearch]
    simp only [Bool.and_eq_true, regexCond_iff, minCond_iff, maxCond_iff, and_assoc]
    constructor
    · rintro ⟨hp, -, hmin, hmax, -⟩
      exact ⟨hp, le_antisymm (hmax 10 rfl) (hmin 10 rfl)⟩
    · rintro ⟨hp, hpr⟩
      refine ⟨hp, by simp, ?_, ?_, by simp⟩
      · intro m hm; cases hm; omega
      · intro m hm; cases hm; omega
  · intro pat text hdot
    rw [regexMatchCI, ciSubstringOf, regexFind_eq_lit _ _ hdot]

/-- C8 counterexample: with the one-product catalog holding the product
named Widget, the search name filter w.dget returns that product (the
dot is a regex wildcard) although w.dget is not a case-insensitive
literal substring of Widget — so the search is not a literal substring
filter as claimed. -/
theorem c8_counterexample :
    exProd ∈ searchProducts exDB
      { name := some ("w.dget"), minPrice := none, maxPrice := none, color := none } ∧
    ciSubstringOf "w.dget" exProd.name = false := by
  constructor
  · decide
  · decide

theorem c8_witness :
    ('.' ∉ ("red").data) ∧
    regexMatchCI "red" "Dark Red" = ciSubstringOf "red" "Dark Red" ∧
    (exProd ∈ searchProducts exDB
        { name := none, minPrice := some 10, maxPrice := some 10, color := none }
      ↔ exProd ∈ exDB.products ∧ exProd.price = 10) := by
  refine ⟨by decide, ?_, ?_⟩
  · exact (c8_search_regex_semantics exDB
      { name := none, minPrice := none, maxPrice := none, color := none } exProd).2.2.2
      "red" "Dark Red" (by decide)
  · exact (c8_search_regex_semantics exDB
      { name := none, minPrice := some 10, maxPrice := some 10, color := none } exProd).2.2.1

/-! ### C5: order-status transitions -/

theorem registerUser_orders (s : DB) (n e p : String) :
    (registerUser s n e p).2.orders = s.orders := by
  unfold registerUser
  rcases findUserByEmail s e with _ | u <;> rfl

theorem registerSeller_orders (s : DB) (n e p : String) :
    (registerSeller s n e p).2.orders = s.orders := by
  unfold registerSeller
  rcases findUserByEmail s e with _ | u <;> rfl

theorem createAdmin_orders (s : DB) (n e p : String) :
    (createAdmin s n e p).2.orders = s.orders := by
  unfold createAdmin
  rcases findUserByEmail s e with _ | u <;> rfl

theorem updateProduct_orders (s : DB) (pid : Nat) (f : ProductFields) :
    (updateProduct s pid f).2.orders = s.orders := by
  unfold updateProduct
  rcases findProductById s pid with _ | p <;> rfl

theorem deleteProduct_orders (s : DB) (pid : Nat) :
    (deleteProduct s pid).2.orders = s.orders := by
  unfold deleteProduct
  rcases findProductById s pid with _ | p <;> rfl

/-- The buy loop never touches the orders, users, or the order-id
counter: only product quantities change. -/
theorem processLines_frame :
    ∀ (lines : List LineReq) (s : DB) (acc : List LineItem) (tot : Int),
      (processLines s lines acc tot).2.orders = s.orders ∧
      (processLines s lines acc tot).2.users = s.users ∧
      (processLines s lines acc tot).2.nextOrderId = s.nextOrderId := by
  intro lines
  induction lines with
  | nil => intro s acc tot; exact ⟨rfl, rfl, rfl⟩
  | cons item rest ih =>
    intro s acc tot
    unfold processLines
    rcases hf : findProductById s item.productId with _ | product <;> dsimp only
    · exact ⟨rfl, rfl, rfl⟩
    · by_cases hq : product.quantity < (item.quantity : Int)
      · rw [if_pos hq]
        exact ⟨rfl, rfl, rfl⟩
      · rw [if_neg hq]
        exact ih _ _ _

theorem statusOf_eq_of_orders {s s' : DB} (h : s'.orders = s.orders) (oid : Nat) :
    statusOf s' oid = statusOf s oid := by
  unfold statusOf findOrderById
  rw [h]

theorem parseStatus_pending {st : String}
    (h : parseStatus st = some OrderStatus.pending) : st = "pending" := by
  unfold parseStatus at h
  split_ifs at h with h1 h2 h3 h4 h5
  · exact h1
  all_goals simp at h

theorem findOrder_setStatus_same (t : Nat) (σ : OrderStatus) (xs : List Order) :
    findByKey Order.id t (updateByKey Order.id t (fun q => { q with status := σ }) xs)
      = (findByKey Order.id t xs).map (fun q => { q with status := σ }) := by
  apply findByKey_updateByKey
  intro a
  rfl

theorem findOrder_setStatus_ne {t t' : Nat} (h : t' ≠ t) (σ : OrderStatus) (xs : List Order) :
    findByKey Order.id t' (updateByKey Order.id t (fun q => { q with status := σ }) xs)
      = findByKey Order.id t' xs := by
  apply findByKey_updateByKey_ne
  · intro a
    rfl
  · exact h

/-- A single operation that is not an admin overwrite to `pending`
never brings a non-pending order back to `pending`. -/
theorem status_step_no_pending (s : DB) (op : Op) (oid : Nat) (st : OrderStatus)
    (hop : allowsOp op = true)
    (hst : statusOf s oid = some st) (hne : st ≠ OrderStatus.pending) :
    ∃ st', statusOf (step s op) oid = some st' ∧ st' ≠ OrderStatus.pending := by
  cases op with
  | registerUserOp n e p =>
    exact ⟨st, by simp only [step]; rw [statusOf_eq_of_orders (registerUser_orders s n e p)]; exact hst, hne⟩
  | registerSellerOp n e p =>
    exact ⟨st, by simp only [step]; rw [statusOf_eq_of_orders (registerSeller_orders s n e p)]; exact hst, hne⟩
  | createAdminOp n e p =>
    exact ⟨st, by simp only [step]; rw [statusOf_eq_of_orders (createAdmin_orders s n e p)]; exact hst, hne⟩
  | addProductOp n pr d c q =>
    exact ⟨st, by simp only [step]; rw [statusOf_eq_of_orders (rfl : (addProduct s n pr d c q).2.orders = s.orders)]; exact hst, hne⟩
  | updateProductOp pid f =>
    exact ⟨st, by simp only [step]; rw [statusOf_eq_of_orders (updateProduct_orders s pid f)]; exact hst, hne⟩
  | deleteProductOp pid =>
    exact ⟨st, by simp only [step]; rw [statusOf_eq_of_orders (deleteProduct_orders s pid)]; exact hst, hne⟩
  | buyOp uid lines addr =>
    simp only [step]
    unfold buy
    by_cases hemp : lines.isEmpty
    · rw [if_pos hemp]
      exact ⟨st, hst, hne⟩
    · rw [if_neg hemp]
      rcases hp : processLines s lines [] 0 with ⟨r, s'⟩
      have hord : s'.orders = s.orders := by
        have h1 := (processLines_frame lines s [] 0).1
        rw [hp] at h1
        exact h1
      rcases r with e | v
      · dsimp only
        exact ⟨st, by rw [statusOf_eq_of_orders hord]; exact hst, hne⟩
      · rcases v with ⟨items, total⟩
        dsimp only
        refine ⟨st, ?_, hne⟩
        show (findByKey Order.id oid (s'.orders ++ [_])).map Order.status = some st
        rw [findByKey_append, hord]
        rcases hfo : findByKey Order.id oid s.orders with _ | o
        · rw [statusOf, findOrderById, hfo] at hst
          exact absurd hst (by simp)
        · rw [statusOf, findOrderById, hfo] at hst
          simpa [Option.or] using hst
  | cancelOp uid oid2 =>
    simp only [step]
    unfold cancelOrder
    rcases hfo : findOrderByIdAndUser s oid2 uid with _ | o <;> dsimp only
    · exact ⟨st, hst, hne⟩
    · by_cases hpd : o.status ≠ OrderStatus.pending
      · rw [if_pos hpd]
        exact ⟨st, hst, hne⟩
      · rw [if_neg hpd]
        dsimp only
        by_cases hoid : oid = o.id
        · refine ⟨OrderStatus.cancelled, ?_, by simp⟩
          show (findByKey Order.id oid (updateByKey Order.id o.id _ s.orders)).map Order.status = _
          rw [hoid, findOrder_setStatus_same]
          rcases hf2 : findByKey Order.id o.id s.orders with _ | ord
          · rw [statusOf, findOrderById, hoid, hf2] at hst
            exact absurd hst (by simp)
          · simp
        · refine ⟨st, ?_, hne⟩
          show (findByKey Order.id oid (updateByKey Order.id o.id _ s.orders)).map Order.status = some st
          rw [findOrder_setStatus_ne hoid]
          exact hst
  | setStatusOp oid2 stStr =>
    simp only [step]
    unfold setOrderStatus
    rcases hps : parseStatus stStr with _ | σ <;> dsimp only
    · exact ⟨st, hst, hne⟩
    · rcases hfo : findOrderById s oid2 with _ | o <;> dsimp only
      · exact ⟨st, hst, hne⟩
      · have hσ : σ ≠ OrderStatus.pending := by
          intro hσp
          subst hσp
          rw [parseStatus_pending hps] at hop
          simp [allowsOp] at hop
        by_cases hoid : oid = oid2
        · refine ⟨σ, ?_, hσ⟩
          show (findByKey Order.id oid (updateByKey Order.id oid2 _ s.orders)).map Order.status = some σ
          rw [hoid, findOrder_setStatus_same]
          rcases hf2 : findByKey Order.id oid2 s.orders with _ | ord
          · rw [statusOf, findOrderById, hoid, hf2] at hst
            exact absurd hst (by simp)
          · simp
        · refine ⟨st, ?_, hne⟩
          show (findByKey Order.id oid (updateByKey Order.id oid2 _ s.orders)).map Order.status = some st
          rw [findOrder_setStatus_ne hoid]
          exact hst

/-- C5 (amended): the admin status route accepts every status in the
whitelist, `pending` included, and overwrites unconditionally, so an
admin can reset any order — cancelled included — to `pending`; excluding
admin overwrites to `pending`, no sequence of operations brings an order
whose status is cancelled, delivered, shipped, or confirmed back to
`pending`. -/
theorem c5_no_return_to_pending :
    ∀ (ops : List Op) (s : DB) (oid : Nat) (st : OrderStatus),
      (∀ op ∈ ops, allowsOp op = true) →
      statusOf s oid = some st → st ≠ OrderStatus.pending →
      ∃ st', statusOf (ops.foldl step s) oid = some st' ∧ st' ≠ OrderStatus.pending := by
  intro ops
  induction ops with
  | nil => intro s oid st _ hst hne; exact ⟨st, hst, hne⟩
  | cons op rest ih =>
    intro s oid st hall hst hne
    rcases status_step_no_pending s op oid st (hall op (List.mem_cons_self _ _)) hst hne with
      ⟨st1, h1, hne1⟩
    exact ih (step s op) oid st1 (fun o ho => hall o (List.mem_cons_of_mem _ ho)) h1 hne1

/-- C5 counterexample: PUT /api/admin/order/:id/status lists `pending`
among the valid statuses and overwrites unconditionally, so the
cancelled example order transitions back to `pending`. -/
theorem c5_counterexample :
    statusOf exDB2 0 = some OrderStatus.cancelled ∧
    statusOf (step exDB2 (Op.setStatusOp 0 "pending")) 0 = some OrderStatus.pending := by
  constructor <;> rfl

theorem c5_witness :
    (∀ op ∈ [Op.setStatusOp 0 "shipped", Op.cancelOp 0 0], allowsOp op = true) ∧
    statusOf exDB2 0 = some OrderStatus.cancelled ∧
    (∃ st', statusOf ([Op.setStatusOp 0 "shipped", Op.cancelOp 0 0].foldl step exDB2) 0
      = some st' ∧ st' ≠ OrderStatus.pending) := by
  refine ⟨by decide, rfl, ?_⟩
  exact c5_no_return_to_pending [Op.setStatusOp 0 "shipped", Op.cancelOp 0 0] exDB2 0
    OrderStatus.cancelled (by decide) rfl (by decide)

/-! ### C4: quantity-on-hand never goes negative -/

theorem registerUser_products (s : DB) (n e p : String) :
    (registerUser s n e p).2.products = s.products := by
  unfold registerUser
  rcases findUserByEmail s e with _ | u <;> rfl

theorem registerSeller_products (s : DB) (n e p : String) :
    (registerSeller s n e p).2.products = s.products := by
  unfold registerSeller
  rcases findUserByEmail s e with _ | u <;> rfl

theorem createAdmin_products (s : DB) (n e p : String) :
    (createAdmin s n e p).2.products = s.products := by
  unfold createAdmin
  rcases findUserByEmail s e with _ | u <;> rfl

theorem setOrderStatus_products (s : DB) (oid : Nat) (st : String) :
    (setOrderStatus s oid st).2.products = s.products := by
  unfold setOrderStatus
  rcases parseStatus st with _ | σ
  · rfl
  · rcases findOrderById s oid with _ | o <;> rfl

/-- The buy loop keeps every stored quantity non-negative: the decrement
is guarded by the stock check. -/
theorem processLines_qnn :
    ∀ (lines : List LineReq) (s : DB) (acc : List LineItem) (tot : Int),
      quantitiesNonneg s → quantitiesNonneg (processLines s lines acc tot).2 := by
  intro lines
  induction lines with
  | nil => intro s acc tot h; exact h
  | cons item rest ih =>
    intro s acc tot h
    unfold processLines
    rcases hf : findProductById s item.productId with _ | product <;> dsimp only
    · exact h
    · by_cases hq : product.quantity < (item.quantity : Int)
      · rw [if_pos hq]
        exact h
      · rw [if_neg hq]
        apply ih
        intro p hp
        rcases mem_updateByKey hp with hmem | ⟨x, hx, hpx⟩
        · exact h p hmem
        · rw [hpx]
          dsimp only
          omega

/-- The cancel restore loop only increments by non-negative line
quantities. -/
theorem restoreStock_qnn :
    ∀ (items : List LineItem) (ps : List Product),
      (∀ p ∈ ps, 0 ≤ p.quantity) → ∀ p ∈ restoreStock ps items, 0 ≤ p.quantity := by
  intro items
  induction items with
  | nil => intro ps h; exact h
  | cons item rest ih =>
    intro ps h
    unfold restoreStock
    apply ih
    intro p hp
    rcases mem_updateByKey hp with hmem | ⟨x, hx, hpx⟩
    · exact h p hmem
    · rw [hpx]
      dsimp only
      have := h x hx
      omega

theorem step_preserves_qnn (s : DB) (op : Op) (h : quantitiesNonneg s) :
    quantitiesNonneg (step s op) := by
  cases op with
  | registerUserOp n e p =>
    intro q hq
    rw [step, registerUser_products] at hq
    exact h q hq
  | registerSellerOp n e p =>
    intro q hq
    rw [step, registerSeller_products] at hq
    exact h q hq
  | createAdminOp n e p =>
    intro q hq
    rw [step, createAdmin_products] at hq
    exact h q hq
  | setStatusOp oid st =>
    intro q hq
    rw [step, setOrderStatus_products] at hq
    exact h q hq
  | addProductOp n pr d c q =>
    simp only [step]
    unfold addProduct
    intro p hp
    dsimp only at hp
    rcases List.mem_append.mp hp with hmem | hmem
    · exact h p hmem
    · rw [List.mem_singleton.mp hmem]
      exact Int.natCast_nonneg q
  | updateProductOp pid f =>
    simp only [step]
    unfold updateProduct
    rcases findProductById s pid with _ | p0 <;> dsimp only
    · exact h
    · intro p hp
      rcases mem_updateByKey hp with hmem | ⟨x, hx, hpx⟩
      · exact h p hmem
      · rw [hpx]
        unfold applyFields
        dsimp only
        rcases hfq : f.quantity with _ | q <;> dsimp only
        · exact h x hx
        · exact Int.natCast_nonneg q
  | deleteProductOp pid =>
    simp only [step]
    unfold deleteProduct
    rcases findProductById s pid with _ | p0 <;> dsimp only
    · exact h
    · intro p hp
      exact h p (mem_removeByKey hp)
  | buyOp uid lines addr =>
    simp only [step]
    unfold buy
    split
    · exact h
    · rcases hp : processLines s lines [] 0 with ⟨r, s'⟩
      have hs' : quantitiesNonneg s' := by
        have hq := processLines_qnn lines s [] 0 h
        rw [hp] at hq
        exact hq
      rcases r with e | v
      · dsimp only
        exact hs'
      · rcases v with ⟨items, total⟩
        dsimp only
        intro p hpp
        exact hs' p hpp
  | cancelOp uid oid =>
    simp only [step]
    unfold cancelOrder
    rcases findOrderByIdAndUser s oid uid with _ | o <;> dsimp only
    · exact h
    · split
      · exact h
      · dsimp only
        intro p hp
        exact restoreStock_qnn o.products s.products h p hp

/-- C4: starting from a state where every product's quantity-on-hand is
non-negative, no sequence of system operations (registration, product
create/update/delete, buy, cancel, admin status overwrite) can drive any
quantity-on-hand negative: the buy decrement is guarded by the stock
check, cancel only increments by non-negative line quantities, and
product writes store non-negative quantities. -/
theorem c4_stock_nonneg_invariant :
    ∀ (ops : List Op) (s : DB), quantitiesNonneg s → quantitiesNonneg (ops.foldl step s) := by
  intro ops
  induction ops with
  | nil => intro s h; exact h
  | cons op rest ih =>
    intro s h
    exact ih (step s op) (step_preserves_qnn s op h)

theorem c4_witness :
    quantitiesNonneg exDB ∧
    quantitiesNonneg ([Op.buyOp 0 [⟨0, 3⟩] "addr", Op.cancelOp 0 0,
        Op.updateProductOp 0
          { name := none, price := none, description := none, color := none
            quantity := some 2 }].foldl step exDB) :=
  ⟨by decide, c4_stock_nonneg_invariant _ exDB (by decide)⟩

/-! ### Arithmetic over request/line sums -/

theorem pairSum_of_not_mem :
    ∀ {pairs : List (Nat × Nat)} {t : Nat}, (∀ pr ∈ pairs, pr.1 ≠ t) → pairSum pairs t = 0 := by
  intro pairs
  induction pairs with
  | nil => intro t _; rfl
  | cons pr rest ih =>
    intro t h
    rcases pr with ⟨pid, q⟩
    unfold pairSum
    rw [if_neg (h (pid, q) (List.mem_cons_self _ _)), ih fun x hx => h x (List.mem_cons_of_mem _ hx)]

theorem reqSum_of_not_mem {lines : List LineReq} {t : Nat}
    (h : t ∉ lines.map LineReq.productId) : reqSum lines t = 0 := by
  unfold reqSum
  apply pairSum_of_not_mem
  intro pr hpr
  rcases List.mem_map.mp hpr with ⟨l, hl, hpl⟩
  rw [← hpl]
  exact fun hc => h (hc ▸ List.mem_map_of_mem LineReq.productId hl)

theorem reqSum_eq_of_nodup :
    ∀ {lines : List LineReq}, (lines.map LineReq.productId).Nodup →
      ∀ {l : LineReq}, l ∈ lines → reqSum lines l.productId = l.quantity := by
  intro lines
  induction lines with
  | nil => intro _ l hl; simp at hl
  | cons a rest ih =>
    intro hnd l hl
    simp only [List.map_cons, List.nodup_cons] at hnd
    rcases List.mem_cons.mp hl with hla | hlr
    · subst hla
      unfold reqSum pairSum
      rw [List.map_cons]
      show (if l.productId = l.productId then l.quantity else 0) + pairSum _ _ = l.quantity
      rw [if_pos rfl, pairSum_of_not_mem, Nat.add_zero]
      intro pr hpr
      rcases List.mem_map.mp hpr with ⟨l', hl', hpl'⟩
      rw [← hpl']
      exact fun hc => hnd.1 (hc ▸ List.mem_map_of_mem LineReq.productId hl')
    · have hne : a.productId ≠ l.productId := by
        intro hc
        exact hnd.1 (hc ▸ List.mem_map_of_mem LineReq.productId hlr)
      unfold reqSum pairSum
      rw [List.map_cons]
      show (if a.productId = l.productId then a.quantity else 0) + pairSum _ _ = l.quantity
      rw [if_neg hne, Nat.zero_add]
      exact ih hnd.2 hlr

theorem itemSum_eq_reqSum {items : List LineItem} {lines : List LineReq}
    (h : items.map (fun i => (i.productId, i.quantity))
       = lines.map (fun l => (l.productId, l.quantity))) :
    ∀ t, itemSum items t = reqSum lines t := by
  intro t
  unfold itemSum reqSum
  rw [h]

/-! ### Specialized product-store rewrites -/

theorem findProduct_set_same (t : Nat) (c : Int) (xs : List Product) :
    findByKey Product.id t
        (updateByKey Product.id t (fun p => { p with quantity := c }) xs)
      = (findByKey Product.id t xs).map (fun p => { p with quantity := c }) := by
  apply findByKey_updateByKey
  intro a
  rfl

theorem findProduct_set_ne {t t' : Nat} (h : t' ≠ t) (c : Int) (xs : List Product) :
    findByKey Product.id t'
        (updateByKey Product.id t (fun p => { p with quantity := c }) xs)
      = findByKey Product.id t' xs := by
  apply findByKey_updateByKey_ne
  · intro a
    rfl
  · exact h

theorem findProduct_inc_same (t : Nat) (q : Nat) (xs : List Product) :
    findByKey Product.id t
        (updateByKey Product.id t (fun p => { p with quantity := p.quantity + (q : Int) }) xs)
      = (findByKey Product.id t xs).map (fun p => { p with quantity := p.quantity + (q : Int) }) := by
  apply findByKey_updateByKey
  intro a
  rfl

theorem findProduct_inc_ne {t t' : Nat} (h : t' ≠ t) (q : Nat) (xs : List Product) :
    findByKey Product.id t'
        (updateByKey Product.id t (fun p => { p with quantity := p.quantity + (q : Int) }) xs)
      = findByKey Product.id t' xs := by
  apply findByKey_updateByKey_ne
  · intro a
    rfl
  · exact h

theorem qtyAt_set_qty (s : DB) (tpid : Nat) (c : Int) (pid : Nat) :
    qtyAt { s with products := updateByKey Product.id tpid (fun p => { p with quantity := c }) s.products } pid
      = if pid = tpid then (findByKey Product.id tpid s.products).map (fun _ => c)
        else qtyAt s pid := by
  unfold qtyAt qtyAtList
  dsimp only
  by_cases h : pid = tpid
  · rw [if_pos h, h, findProduct_set_same, Option.map_map]
    cases findByKey Product.id tpid s.products <;> rfl
  · rw [if_neg h, findProduct_set_ne h]

theorem priceAt_set_qty (s : DB) (tpid : Nat) (c : Int) (pid : Nat) :
    priceAt { s with products := updateByKey Product.id tpid (fun p => { p with quantity := c }) s.products } pid
      = priceAt s pid := by
  unfold priceAt findProductById
  dsimp only
  by_cases h : pid = tpid
  · rw [h, findProduct_set_same, Option.map_map]
    cases findByKey Product.id tpid s.products <;> rfl
  · rw [findProduct_set_ne h]

/-! ### The buy loop as a per-line state transformer -/

theorem stepLine_orders (s : DB) (l : LineReq) : (stepLine s l).orders = s.orders := by
  unfold stepLine
  rcases findProductById s l.productId with _ | p
  · rfl
  · dsimp only
    split <;> rfl

theorem stateAfter_orders (s : DB) (lines : List LineReq) (k : Nat) :
    (stateAfter s lines k).orders = s.orders := by
  unfold stateAfter
  generalize lines.take k = L
  induction L generalizing s with
  | nil => rfl
  | cons a t ih =>
    rw [List.foldl_cons]
    exact (ih (stepLine s a)).trans (stepLine_orders s a)

theorem stateAfter_cons_succ (s : DB) (item : LineReq) (rest : List LineReq) (j : Nat) :
    stateAfter s (item :: rest) (j + 1) = stateAfter (stepLine s item) rest j := by
  unfold stateAfter
  rw [List.take_succ_cons, List.foldl_cons]

theorem stepLine_eq_of_pass {s : DB} {item : LineReq} {product : Product}
    (hf : findProductById s item.productId = some product)
    (hq : ¬ product.quantity < (item.quantity : Int)) :
    stepLine s item = { s with products := updateByKey Product.id product.id (fun p => { p with quantity := product.quantity - (item.quantity : Int) }) s.products } := by
  unfold stepLine
  rw [hf]
  dsimp only
  rw [if_neg hq]

/-! ### Cancel restore arithmetic -/

theorem find?_append_right {α : Type} {p : α → Bool} {l1 l2 : List α}
    (h : l1.find? p = none) : (l1 ++ l2).find? p = l2.find? p := by
  rw [List.find?_append, h]
  rfl

theorem restoreStock_qty :
    ∀ (items : List LineItem) (ps : List Product) (t : Nat),
      qtyAtList (restoreStock ps items) t
        = (qtyAtList ps t).map (fun v => v + (itemSum items t : Int)) := by
  intro items
  induction items with
  | nil =>
    intro ps t
    show qtyAtList ps t = (qtyAtList ps t).map (fun v => v + (itemSum [] t : Int))
    have h0 : itemSum [] t = 0 := rfl
    rw [h0]
    cases qtyAtList ps t <;> simp
  | cons item rest ih =>
    intro ps t
    unfold restoreStock
    rw [ih]
    have hsum : itemSum (item :: rest) t
        = (if item.productId = t then item.quantity else 0) + itemSum rest t := by
      unfold itemSum
      rw [List.map_cons]
      rfl
    by_cases h : item.productId = t
    · have hsum2 : itemSum (item :: rest) t = item.quantity + itemSum rest t := by
        rw [hsum, if_pos h]
      have hupd : qtyAtList (updateByKey Product.id item.productId
          (fun p => { p with quantity := p.quantity + (item.quantity : Int) }) ps) t
          = (qtyAtList ps t).map (fun v => v + (item.quantity : Int)) := by
        unfold qtyAtList
        rw [← h, findProduct_inc_same, Option.map_map]
        cases findByKey Product.id item.productId ps <;> rfl
      rw [hupd, Option.map_map]
      simp only [hsum2]
      cases qtyAtList ps t with
      | none => rfl
      | some v =>
        show some _ = some _
        congr 1
        simp only [Function.comp_apply]
        push_cast
        ring
    · have hsum2 : itemSum (item :: rest) t = itemSum rest t := by
        rw [hsum, if_neg h, Nat.zero_add]
      have hupd : qtyAtList (updateByKey Product.id item.productId
          (fun p => { p with quantity := p.quantity + (item.quantity : Int) }) ps) t
          = qtyAtList ps t := by
        unfold qtyAtList
        rw [findProduct_inc_ne (fun hc => h hc.symm)]
      rw [hupd]
      simp only [hsum2]

/-! ### The buy loop on success -/

/-- Every successful run of the buy loop appends one snapshot per line
(same product id and quantity as requested), adds price-at-call-time
times quantity to the total, and decrements each product's
quantity-on-hand by the total quantity requested for it. -/
theorem processLines_ok_spec :
    ∀ (lines : List LineReq) (s : DB) (acc : List LineItem) (tot : Int)
      (items : List LineItem) (T : Int) (s' : DB),
      processLines s lines acc tot = (.ok (items, T), s') →
      (∃ news, items = acc ++ news ∧
        news.map (fun i => (i.productId, i.quantity))
          = lines.map (fun l => (l.productId, l.quantity))) ∧
      T = tot + (lines.map (fun l => priceAt s l.productId * (l.quantity : Int))).sum ∧
      (∀ pid, qtyAt s' pid = (qtyAt s pid).map (fun v => v - (reqSum lines pid : Int))) := by
  intro lines
  induction lines with
  | nil =>
    intro s acc tot items T s' h
    unfold processLines at h
    simp only [Prod.mk.injEq, Except.ok.injEq] at h
    obtain ⟨⟨hi, hT⟩, hs⟩ := h
    subst hi hT hs
    refine ⟨⟨[], by simp, by simp⟩, by simp, ?_⟩
    intro pid
    have h0 : reqSum [] pid = 0 := rfl
    rw [h0]
    cases qtyAt s pid <;> simp
  | cons item rest ih =>
    intro s acc tot items T s' h
    unfold processLines at h
    rcases hf : findProductById s item.productId with _ | product
    · rw [hf] at h
      dsimp only at h
      exact absurd h (by simp)
    · rw [hf] at h
      dsimp only at h
      by_cases hq : product.quantity < (item.quantity : Int)
      · rw [if_pos hq] at h
        exact absurd h (by simp)
      · rw [if_neg hq] at h
        obtain ⟨⟨news, hitems, hpairs⟩, hT, hqty⟩ := ih _ _ _ _ _ _ h
        have hpid : product.id = item.productId := findByKey_key hf
        have hreq : ∀ pid, reqSum (item :: rest) pid
            = (if item.productId = pid then item.quantity else 0) + reqSum rest pid := by
          intro pid
          unfold reqSum
          rw [List.map_cons]
          rfl
        refine ⟨⟨{ productId := product.id, name := product.name, price := product.price, quantity := item.quantity } :: news, ?_, ?_⟩, ?_, ?_⟩
        · simp [hitems]
        · rw [List.map_cons, List.map_cons, hpairs]
          dsimp only
          rw [hpid]
        · rw [hT]
          simp only [priceAt_set_qty]
          have hpr : priceAt s item.productId = product.price := by
            unfold priceAt
            rw [hf]
            rfl
          rw [List.map_cons, List.sum_cons, hpr]
          ring
        · intro pid
          rw [hqty pid, qtyAt_set_qty]
          by_cases hp : pid = item.productId
          · have hreq2 : reqSum (item :: rest) pid = item.quantity + reqSum rest pid := by
              rw [hreq, if_pos hp.symm]
            rw [if_pos (hp.trans hpid.symm)]
            rw [show findByKey Product.id product.id s.products = some product from by
              rw [hpid]; exact hf]
            have hqs : qtyAt s pid = some product.quantity := by
              rw [hp]
              unfold qtyAt qtyAtList
              rw [show findByKey Product.id item.productId s.products = some product from hf]
              rfl
            rw [hqs]
            simp only [hreq2]
            show some _ = some _
            congr 1
            push_cast
            ring
          · have hreq2 : reqSum (item :: rest) pid = reqSum rest pid := by
              rw [hreq, if_neg (fun hc => hp hc.symm), Nat.zero_add]
            rw [if_neg (fun hc => hp (hc.trans hpid))]
            simp only [hreq2]

/-- When the lines reference pairwise-distinct products that all exist
with sufficient stock, the buy loop succeeds. -/
theorem processLines_total :
    ∀ (lines : List LineReq) (s : DB) (acc : List LineItem) (tot : Int),
      (lines.map LineReq.productId).Nodup →
      (∀ l ∈ lines, ∃ p, findProductById s l.productId = some p ∧
        (l.quantity : Int) ≤ p.quantity) →
      ∃ items T s', processLines s lines acc tot = (.ok (items, T), s') := by
  intro lines
  induction lines with
  | nil => intro s acc tot _ _; exact ⟨acc, tot, s, rfl⟩
  | cons item rest ih =>
    intro s acc tot hnd hok
    simp only [List.map_cons, List.nodup_cons] at hnd
    obtain ⟨p, hp, hq⟩ := hok item (List.mem_cons_self _ _)
    unfold processLines
    rw [hp]
    dsimp only
    rw [if_neg (by omega : ¬ p.quantity < (item.quantity : Int))]
    apply ih
    · exact hnd.2
    · intro l hl
      obtain ⟨pl, hpl, hql⟩ := hok l (List.mem_cons_of_mem _ hl)
      refine ⟨pl, ?_, hql⟩
      have hne : l.productId ≠ item.productId := by
        intro hc
        exact hnd.1 (hc ▸ List.mem_map_of_mem LineReq.productId hl)
      have hpid : p.id = item.productId := findByKey_key hp
      show findByKey Product.id l.productId
        (updateByKey Product.id p.id _ s.products) = some pl
      rw [findProduct_set_ne (by rw [hpid]; exact hne)]
      exact hpl

/-- C1: for a buy call whose lines name pairwise-distinct products that
all exist with quantity-on-hand at least the requested quantity, the
call succeeds and creates an Order with status pending owned by the
caller, whose totalAmount is the sum over the lines of (product price at
call time × requested quantity); each referenced product's
quantity-on-hand decreases by exactly the requested quantity and every
other product is untouched. -/
theorem c1_buy_success :
    ∀ (s : DB) (uid : Nat) (lines : List LineReq) (addr : String),
      lines ≠ [] →
      (lines.map LineReq.productId).Nodup →
      (∀ l ∈ lines, ∃ p, findProductById s l.productId = some p ∧
        (l.quantity : Int) ≤ p.quantity) →
      ∃ o s', buy s uid lines addr = (Resp.ok o, s') ∧
        o.status = OrderStatus.pending ∧
        o.userId = uid ∧
        o.shippingAddress = addr ∧
        o.totalAmount = (lines.map (fun l => priceAt s l.productId * (l.quantity : Int))).sum ∧
        s'.orders = s.orders ++ [o] ∧
        (∀ l ∈ lines, qtyAt s' l.productId
          = (qtyAt s l.productId).map (fun v => v - (l.quantity : Int))) ∧
        (∀ pid, pid ∉ lines.map LineReq.productId → qtyAt s' pid = qtyAt s pid) := by
  intro s uid lines addr hne hnd hok
  obtain ⟨items, T, s1, hrun⟩ := processLines_total lines s [] 0 hnd hok
  obtain ⟨⟨news, hitems, hpairs⟩, hT, hqty⟩ := processLines_ok_spec lines s [] 0 items T s1 hrun
  have hframe := processLines_frame lines s [] 0
  rw [hrun] at hframe
  unfold buy
  rw [if_neg (by simpa using hne)]
  rw [hrun]
  dsimp only
  refine ⟨_, _, rfl, rfl, rfl, rfl, ?_, ?_, ?_, ?_⟩
  · rw [hT]
    ring
  · show s1.orders ++ _ = s.orders ++ _
    rw [hframe.1]
  · intro l hl
    have h1 := hqty l.productId
    rw [reqSum_eq_of_nodup hnd hl] at h1
    exact h1
  · intro pid hpid
    have h1 := hqty pid
    rw [reqSum_of_not_mem hpid] at h1
    simpa using h1

theorem c1_witness :
    ∃ o s', buy exDB 0 [{ productId := 0, quantity := 3 }] "addr" = (Resp.ok o, s') ∧
      o.status = OrderStatus.pending ∧
      o.totalAmount
        = (([{ productId := 0, quantity := 3 }] : List LineReq).map
            (fun l => priceAt exDB l.productId * (l.quantity : Int))).sum := by
  obtain ⟨o, s', h1, h2, -, -, h5, -, -, -⟩ :=
    c1_buy_success exDB 0 [{ productId := 0, quantity := 3 }] "addr" (by decide) (by decide)
      (by
        intro l hl
        rw [List.mem_singleton] at hl
        subst hl
        exact ⟨exProd, rfl, by decide⟩)
  exact ⟨o, s', h1, h2, h5⟩

/-! ### C2: buy failure characterization -/

/-- A failing run of the buy loop fails at the first line whose lookup
or stock check fails, reporting NotFound with the missing id or
InsufficientStock with the product name, and leaves exactly the
decrements of the earlier passing lines committed. -/
theorem processLines_err :
    ∀ (lines : List LineReq) (s : DB) (acc : List LineItem) (tot : Int) (e : BuyErr) (s' : DB),
      processLines s lines acc tot = (.error e, s') →
      ∃ k, ∃ hk : k < lines.length,
        (∀ i (hi : i < lines.length), i < k →
          passesLine (stateAfter s lines i) (lines.get ⟨i, hi⟩) = true) ∧
        passesLine (stateAfter s lines k) (lines.get ⟨k, hk⟩) = false ∧
        s' = stateAfter s lines k ∧
        e = lineFailErr (stateAfter s lines k) (lines.get ⟨k, hk⟩) := by
  intro lines
  induction lines with
  | nil =>
    intro s acc tot e s' h
    exact absurd h (by simp [processLines])
  | cons item rest ih =>
    intro s acc tot e s' h
    unfold processLines at h
    rcases hf : findProductById s item.productId with _ | product
    · rw [hf] at h
      dsimp only at h
      simp only [Prod.mk.injEq, Except.error.injEq] at h
      obtain ⟨he, hs⟩ := h
      refine ⟨0, Nat.succ_pos _, ?_, ?_, ?_, ?_⟩
      · intro i hi hik
        omega
      · show passesLine s item = false
        unfold passesLine
        rw [hf]
      · rw [← hs]
        rfl
      · show e = lineFailErr s item
        unfold lineFailErr
        rw [hf, ← he]
    · rw [hf] at h
      dsimp only at h
      by_cases hq : product.quantity < (item.quantity : Int)
      · rw [if_pos hq] at h
        simp only [Prod.mk.injEq, Except.error.injEq] at h
        obtain ⟨he, hs⟩ := h
        refine ⟨0, Nat.succ_pos _, ?_, ?_, ?_, ?_⟩
        · intro i hi hik
          omega
        · show passesLine s item = false
          unfold passesLine
          rw [hf]
          dsimp only
          rw [if_pos hq]
        · rw [← hs]
          rfl
        · show e = lineFailErr s item
          unfold lineFailErr
          rw [hf, ← he]
      · rw [if_neg hq] at h
        obtain ⟨k, hk, hpass, hfail, hs, he⟩ := ih _ _ _ _ _ h
        have hstep := stepLine_eq_of_pass hf hq
        refine ⟨k + 1, Nat.succ_lt_succ hk, ?_, ?_, ?_, ?_⟩
        · intro i hi hik
          cases i with
          | zero =>
            show passesLine s item = true
            unfold passesLine
            rw [hf]
            dsimp only
            rw [if_neg hq]
          | succ j =>
            have hj : j < rest.length := by simpa using hi
            have hjk : j < k := by omega
            have hpj := hpass j hj hjk
            rw [stateAfter_cons_succ, hstep]
            exact hpj
        · rw [stateAfter_cons_succ, hstep]
          exact hfail
        · rw [stateAfter_cons_succ, hstep]
          exact hs
        · rw [stateAfter_cons_succ, hstep]
          exact he

/-- C2: buy processes the request's lines in the given order; the first
failing line aborts the call — NotFound naming the missing id, or
InsufficientStock naming the product — no Order is persisted, and the
stock decrements committed by the earlier passing lines of the same
request are kept, not rolled back. -/
theorem c2_buy_line_failure :
    ∀ (s : DB) (uid : Nat) (lines : List LineReq) (addr : String) (r : Resp Order) (s' : DB),
      lines ≠ [] →
      buy s uid lines addr = (r, s') →
      (∀ o, r ≠ Resp.ok o) →
      s'.orders = s.orders ∧
      ∃ k, ∃ hk : k < lines.length,
        (∀ i (hi : i < lines.length), i < k →
          passesLine (stateAfter s lines i) (lines.get ⟨i, hi⟩) = true) ∧
        passesLine (stateAfter s lines k) (lines.get ⟨k, hk⟩) = false ∧
        s' = stateAfter s lines k ∧
        r = respOfBuyErr (lineFailErr (stateAfter s lines k) (lines.get ⟨k, hk⟩)) := by
  intro s uid lines addr r s' hne hbuy hnok
  unfold buy at hbuy
  rw [if_neg (by simpa using hne)] at hbuy
  rcases hp : processLines s lines [] 0 with ⟨pr, s1⟩
  rw [hp] at hbuy
  rcases pr with e | v
  · dsimp only at hbuy
    simp only [Prod.mk.injEq] at hbuy
    obtain ⟨hr, hs1⟩ := hbuy
    obtain ⟨k, hk, hpass, hfail, hs', he⟩ := processLines_err lines s [] 0 e s1 hp
    subst hs1
    refine ⟨?_, k, hk, hpass, hfail, hs', ?_⟩
    · rw [hs', stateAfter_orders]
    · rw [← hr, he]
  · rcases v with ⟨items, T⟩
    dsimp only at hbuy
    simp only [Prod.mk.injEq] at hbuy
    exact absurd hbuy.1.symm (hnok _)

theorem c2_witness :
    ∃ k, ∃ hk : k < ([{ productId := 0, quantity := 3 },
        { productId := 0, quantity := 9 }] : List LineReq).length,
      passesLine
          (stateAfter exDB [{ productId := 0, quantity := 3 },
            { productId := 0, quantity := 9 }] k)
          (([{ productId := 0, quantity := 3 },
            { productId := 0, quantity := 9 }] : List LineReq).get ⟨k, hk⟩) = false ∧
      exDBpartial = stateAfter exDB [{ productId := 0, quantity := 3 },
        { productId := 0, quantity := 9 }] k := by
  obtain ⟨-, k, hk, -, hfail, hs, -⟩ :=
    c2_buy_line_failure exDB 0
      [{ productId := 0, quantity := 3 }, { productId := 0, quantity := 9 }] "addr"
      (Resp.badRequest ("Insufficient stock for Widget")) exDBpartial
      (by decide) (by decide) (fun o h => Resp.noConfusion h)
  exact ⟨k, hk, hfail, hs⟩

/-! ### C3: cancel and the buy/cancel round trip -/

/-- Successful cancel of a pending order: the response carries the order
with status cancelled, the stored order's status is overwritten, and
every product referenced by a line item gains back that line's
quantity. -/
theorem cancelOrder_pending_spec (s : DB) (uid oid : Nat) (o : Order)
    (h : findOrderByIdAndUser s oid uid = some o) (h2 : o.status = OrderStatus.pending) :
    ∃ s2, cancelOrder s uid oid = (Resp.ok { o with status := OrderStatus.cancelled }, s2) ∧
      s2.orders = updateByKey Order.id o.id
        (fun q => { q with status := OrderStatus.cancelled }) s.orders ∧
      ∀ pid, qtyAt s2 pid
        = (qtyAt s pid).map (fun v => v + (itemSum o.products pid : Int)) := by
  unfold cancelOrder
  rw [h]
  dsimp only
  rw [if_neg (by simp [h2])]
  refine ⟨_, rfl, rfl, ?_⟩
  intro pid
  show qtyAtList (restoreStock s.products o.products) pid = _
  rw [restoreStock_qty]
  rfl

/-- C3: cancelling an owned pending order increments each line item's
product quantity-on-hand by that line's quantity and sets the status to
cancelled — in particular a buy immediately followed by cancel leaves
every product's stock unchanged; cancelling an owned non-pending order
fails with InvalidTransition and changes nothing; cancel with no order
of that id owned by the caller fails with NotFound. -/
theorem c3_cancel_spec :
    (∀ (s : DB) (uid oid : Nat),
      findOrderByIdAndUser s oid uid = none →
      cancelOrder s uid oid = (Resp.notFound ("Order not found"), s)) ∧
    (∀ (s : DB) (uid oid : Nat) (o : Order),
      findOrderByIdAndUser s oid uid = some o → o.status ≠ OrderStatus.pending →
      cancelOrder s uid oid
        = (Resp.badRequest ("Cannot cancel order. Order already processed."), s)) ∧
    (∀ (s : DB) (uid oid : Nat) (o : Order),
      findOrderByIdAndUser s oid uid = some o → o.status = OrderStatus.pending →
      ∃ s2, cancelOrder s uid oid = (Resp.ok { o with status := OrderStatus.cancelled }, s2) ∧
        ∀ pid, qtyAt s2 pid
          = (qtyAt s pid).map (fun v => v + (itemSum o.products pid : Int))) ∧
    (∀ (s : DB) (uid : Nat) (lines : List LineReq) (addr : String) (o : Order) (s1 : DB),
      ordersFresh s →
      buy s uid lines addr = (Resp.ok o, s1) →
      ∃ o2 s2, cancelOrder s1 uid o.id = (Resp.ok o2, s2) ∧
        o2.status = OrderStatus.cancelled ∧
        statusOf s2 o.id = some OrderStatus.cancelled ∧
        ∀ pid, qtyAt s2 pid = qtyAt s pid) := by
  refine ⟨?_, ?_, ?_, ?_⟩
  · intro s uid oid h
    unfold cancelOrder
    rw [h]
  · intro s uid oid o h h2
    unfold cancelOrder
    rw [h]
    dsimp only
    rw [if_pos h2]
  · intro s uid oid o h h2
    obtain ⟨s2, hc, -, hq⟩ := cancelOrder_pending_spec s uid oid o h h2
    exact ⟨s2, hc, hq⟩
  · intro s uid lines addr o s1 hfresh hbuy
    unfold buy at hbuy
    by_cases hemp : lines.isEmpty
    · rw [if_pos hemp] at hbuy
      exact absurd hbuy (by simp)
    · rw [if_neg hemp] at hbuy
      rcases hp : processLines s lines [] 0 with ⟨pr, sp⟩
      rw [hp] at hbuy
      rcases pr with e | v
      · dsimp only at hbuy
        rcases e with pid | nm <;> simp [respOfBuyErr] at hbuy
      · rcases v with ⟨items, T⟩
        dsimp only at hbuy
        simp only [Prod.mk.injEq, Resp.ok.injEq] at hbuy
        obtain ⟨ho, hs1⟩ := hbuy
        obtain ⟨⟨news, hitems, hpairs⟩, hT, hqty⟩ :=
          processLines_ok_spec lines s [] 0 items T sp hp
        have hframe := processLines_frame lines s [] 0
        rw [hp] at hframe
        obtain ⟨hord, husers, hnext⟩ := hframe
        have hitems0 : items = news := by simpa using hitems
        have hoid : o.id = sp.nextOrderId := by rw [← ho]
        have hoprod : o.products = items := by rw [← ho]
        have hostat : o.status = OrderStatus.pending := by rw [← ho]
        have houser : o.userId = uid := by rw [← ho]
        have hs1o : s1.orders = sp.orders ++ [o] := by
          rw [← hs1]
          dsimp only
          rw [ho]
        have hs1p : s1.products = sp.products := by rw [← hs1]
        have hnone : sp.orders.find? (fun o' => o'.id == o.id && o'.userId == uid) = none := by
          rw [List.find?_eq_none]
          intro o' ho'
          have hlt := hfresh o' (hord ▸ ho')
          simp only [Bool.and_eq_true, beq_iff_eq, not_and]
          intro hid
          exfalso
          rw [hoid, hnext] at hid
          omega
        have hfind : findOrderByIdAndUser s1 o.id uid = some o := by
          unfold findOrderByIdAndUser
          rw [hs1o, find?_append_right hnone]
          simp [houser]
        obtain ⟨s2, hcan, hords2, hq2⟩ := cancelOrder_pending_spec s1 uid o.id o hfind hostat
        refine ⟨_, s2, hcan, rfl, ?_, ?_⟩
        · unfold statusOf findOrderById
          rw [hords2, hs1o, findOrder_setStatus_same]
          have hnone2 : findByKey Order.id o.id sp.orders = none := by
            unfold findByKey
            rw [List.find?_eq_none]
            intro o' ho'
            have hlt := hfresh o' (hord ▸ ho')
            simp only [beq_iff_eq]
            intro hid
            rw [hoid, hnext] at hid
            omega
          rw [findByKey_append, hnone2]
          simp [findByKey]
        · intro pid
          rw [hq2 pid]
          have hq1 : qtyAt s1 pid = qtyAt sp pid := by
            unfold qtyAt qtyAtList
            rw [hs1p]
          rw [hq1, hqty pid, Option.map_map]
          have hsum : itemSum o.products pid = reqSum lines pid := by
            rw [hoprod, hitems0]
            exact itemSum_eq_reqSum hpairs pid
          simp only [hsum]
          cases qtyAt s pid with
          | none => rfl
          | some v =>
            show some _ = some _
            congr 1
            simp only [Function.comp_apply]
            ring

theorem c3_witness :
    ∃ o2 s2, cancelOrder exDBafterBuy 0 exOrder0.id = (Resp.ok o2, s2) ∧
      o2.status = OrderStatus.cancelled ∧
      statusOf s2 exOrder0.id = some OrderStatus.cancelled ∧
      ∀ pid, qtyAt s2 pid = qtyAt exDB pid :=
  c3_cancel_spec.2.2.2 exDB 0 [{ productId := 0, quantity := 3 }] "addr" exOrder0 exDBafterBuy
    (by decide) (by decide)

end ECom
